import Mathlib

/-!
Verification of the workflow execution engine of the gui-workflow-builder
repository.  The definitions below are a shallow embedding of the Python
sources `src/workflow/execution.py`, `src/workflow/engine.py`,
`src/nodes/base_node.py`, `src/nodes/node_factory.py`,
`src/nodes/input_nodes.py` and `src/nodes/processing_nodes.py`.

Python dicts are modelled as association lists keyed by insertion order
(first occurrence wins on lookup, as for dict keys, which are unique);
Python values flowing through node pins are modelled by the inductive
type `Value`.
-/

namespace WorkflowBuilder

/-- A Python value as it flows through node properties, pins and outputs. -/
inductive Value where
  | str (s : String)
  | int (n : Int)
  | bool (b : Bool)
  deriving DecidableEq, Repr

/-- Python truthiness for the values we model (used by
`WorkflowExecution._is_critical_node`, which tests
`properties.get("critical", False)` with `if`). -/
def Value.truthy : Value → Bool
  | .str s => s ≠ ""
  | .int n => n ≠ 0
  | .bool b => b

/-- `d[k]` lookup in a dict modelled as an association list. -/
def dget {α : Type} (d : List (String × α)) (k : String) : Option α :=
  (d.find? (fun p => p.1 == k)).map (fun p => p.2)

/-- `k in d` for a dict modelled as an association list. -/
def dmem {α : Type} (d : List (String × α)) (k : String) : Bool :=
  (d.find? (fun p => p.1 == k)).isSome

/-- `d[k] = v` on a dict: replace the existing binding or append a new one
(insertion order is preserved, as for Python dicts). -/
def dset {α : Type} (d : List (String × α)) (k : String) (v : α) :
    List (String × α) :=
  if dmem d k then d.map (fun p => if p.1 == k then (k, v) else p)
  else d ++ [(k, v)]

/-- A serialized pin record as stored in a node's `inputs`/`outputs` lists
inside the workflow document (`engine._validate_pin_compatibility` reads
`p["name"]` and `p.get("type", "any")`). -/
structure PinData where
  name : String
  type : String
  deriving DecidableEq, Repr

/-- One entry of the `nodes` mapping of a workflow document.  A missing
`type` is modelled as `""` (the code only ever tests it for truthiness),
a missing `position` as `none`. -/
structure NodeData where
  type : String
  position : Option (Int × Int)
  properties : List (String × Value)
  inputs : List PinData
  outputs : List PinData
  deriving DecidableEq, Repr

/-- One entry of the `connections` mapping of a workflow document.  The
four fields are always present in documents produced by the builder; a
missing node reference is modelled as `""` (the code treats falsy ids the
same as missing ones). -/
structure Connection where
  from_node : String
  from_pin : String
  to_node : String
  to_pin : String
  deriving DecidableEq, Repr

/-- The workflow document (`workflow_data`): dicts of nodes and of
connections, both keyed by id in insertion order. -/
structure Workflow where
  nodes : List (String × NodeData)
  connections : List (String × Connection)
  deriving DecidableEq, Repr

/-- The node ids, in dict insertion order. -/
def nodeIds (wd : Workflow) : List String := wd.nodes.map Prod.fst

/-!  ## String ordering

Python's `list.sort()` on node ids compares strings lexicographically by
code point.  We use an executable rendering of that order (Mathlib's
`<` on `String` goes through UTF-8 iterators, which do not reduce well
in the kernel). -/

/-- Lexicographic comparison of character lists by code point. -/
def lexLe : List Char → List Char → Bool
  | [], _ => true
  | _ :: _, [] => false
  | a :: as, b :: bs =>
    if a.toNat < b.toNat then true
    else if b.toNat < a.toNat then false
    else lexLe as bs

/-- Python's `<=` on strings: lexicographic by code point. -/
def pyStrLe (a b : String) : Bool := lexLe a.data b.data

/-- `pyStrLe` as a relation, for use with Mathlib's sorting lemmas. -/
def pyLe : String → String → Prop := fun a b => pyStrLe a b = true

instance : DecidableRel pyLe := fun a b =>
  inferInstanceAs (Decidable (pyStrLe a b = true))

theorem lexLe_total : ∀ a b : List Char, lexLe a b = true ∨ lexLe b a = true
  | [], _ => Or.inl rfl
  | _ :: _, [] => Or.inr rfl
  | a :: as, b :: bs => by
    rcases Nat.lt_trichotomy a.toNat b.toNat with h | h | h
    · left; simp [lexLe, h]
    · have : ¬ a.toNat < b.toNat := by omega
      have h2 : ¬ b.toNat < a.toNat := by omega
      rcases lexLe_total as bs with ih | ih
      · left; simp [lexLe, this, h2, ih]
      · right; simp [lexLe, this, h2, ih]
    · right; simp [lexLe, h]

theorem lexLe_cons_iff {a b : Char} {as bs : List Char} :
    lexLe (a :: as) (b :: bs) = true ↔
      a.toNat < b.toNat ∨ (a.toNat = b.toNat ∧ lexLe as bs = true) := by
  simp only [lexLe]
  by_cases h : a.toNat < b.toNat
  · simp [h]
  · by_cases h2 : b.toNat < a.toNat
    · simp [h, h2]; omega
    · have h3 : a.toNat = b.toNat := by omega
      simp [h, h2, h3]

theorem lexLe_trans : ∀ a b c : List Char,
    lexLe a b = true → lexLe b c = true → lexLe a c = true
  | [], _, _, _, _ => rfl
  | _ :: _, [], _, h, _ => by simp [lexLe] at h
  | _ :: _, _ :: _, [], _, h => by simp [lexLe] at h
  | a :: as, b :: bs, c :: cs, h1, h2 => by
    rw [lexLe_cons_iff] at h1 h2 ⊢
    rcases h1 with h1 | ⟨h1e, h1r⟩ <;> rcases h2 with h2 | ⟨h2e, h2r⟩
    · exact Or.inl (by omega)
    · exact Or.inl (by omega)
    · exact Or.inl (by omega)
    · exact Or.inr ⟨by omega, lexLe_trans as bs cs h1r h2r⟩

theorem lexLe_antisymm : ∀ a b : List Char,
    lexLe a b = true → lexLe b a = true → a = b
  | [], [], _, _ => rfl
  | [], _ :: _, _, h => by simp [lexLe] at h
  | _ :: _, [], h, _ => by simp [lexLe] at h
  | a :: as, b :: bs, h1, h2 => by
    rw [lexLe_cons_iff] at h1 h2
    rcases h1 with h1 | ⟨h1e, h1r⟩ <;> rcases h2 with h2 | ⟨h2e, h2r⟩
    · omega
    · omega
    · omega
    · have hcc : a = b := Char.eq_of_val_eq (UInt32.toNat.inj h1e)
      exact congrArg₂ List.cons hcc (lexLe_antisymm as bs h1r h2r)

instance : IsTotal String pyLe :=
  ⟨fun a b => lexLe_total a.data b.data⟩

instance : IsTrans String pyLe :=
  ⟨fun a b c => lexLe_trans a.data b.data c.data⟩

instance : IsAntisymm String pyLe :=
  ⟨fun a b h1 h2 => by
    cases a; cases b
    exact congrArg String.mk (lexLe_antisymm _ _ h1 h2)⟩

instance : IsRefl String pyLe :=
  ⟨fun a => (lexLe_total a.data a.data).elim id id⟩

/-!  ## Execution order (`WorkflowExecution._build_execution_order`)

The Python code builds `dependencies[to_node] = {from_node, ...}` over the
connections whose `from_node`/`to_node` are truthy and present in `nodes`,
then runs Kahn's algorithm, sorting the ready queue before every pop.  -/

/-- The dependency set `dependencies[n]` as a deduplicated list (a Python
set is used only for membership and size). -/
def depsOf (wd : Workflow) (n : String) : List String :=
  (((wd.connections.map Prod.snd).filter (fun c =>
      decide (c.from_node ≠ "" ∧ c.to_node ≠ "" ∧
        c.from_node ∈ nodeIds wd ∧ c.to_node ∈ nodeIds wd ∧
        c.to_node = n))).map (fun c => c.from_node)).dedup

/-- The update pass after popping `current`: iterate over the nodes in
dict order, decrement the in-degree of every node that depends on
`current`, and enqueue nodes whose in-degree just became zero. -/
def decStep (deps : String → List String) (current : String) :
    List String → (String → Int) → List String → ((String → Int) × List String)
  | [], indeg, queue => (indeg, queue)
  | n :: rest, indeg, queue =>
    if current ∈ deps n then
      decStep deps current rest (fun x => if x = n then indeg n - 1 else indeg x)
        (if indeg n - 1 = 0 then queue ++ [n] else queue)
    else decStep deps current rest indeg queue

/-- The Kahn loop: while the queue is nonempty, sort it, pop the first
element, append it to the result and run the update pass.  The fuel is
the node count, which bounds the number of pops. -/
def kahnLoop (ns : List String) (deps : String → List String) :
    Nat → (String → Int) → List String → List String → List String
  | 0, _, _, result => result
  | fuel + 1, indeg, queue, result =>
    match List.insertionSort pyLe queue with
    | [] => result
    | current :: qs =>
      kahnLoop ns deps fuel (decStep deps current ns indeg qs).1
        (decStep deps current ns indeg qs).2 (result ++ [current])

/-- `WorkflowExecution._build_execution_order`: topological sort with a
deterministic (sorted) ready queue; raises on a length mismatch, which
signals a circular dependency. -/
def buildExecutionOrder (wd : Workflow) : Except String (List String) :=
  let ns := nodeIds wd
  let indeg : String → Int := fun n => ((depsOf wd n).length : Int)
  let queue := ns.filter (fun n => indeg n == 0)
  let result := kahnLoop ns (depsOf wd) ns.length indeg queue []
  if result.length = ns.length then Except.ok result
  else Except.error "Circular dependency detected"

/-!  ## Node schemas and the node runtime

From `src/nodes/base_node.py` (`NodePin`, `NodeSchema`, `BaseNode`,
`SimpleNode`) and the two node types the claims exercise:
`TextInputNode` (`src/nodes/input_nodes.py`) and `TextProcessorNode`
(`src/nodes/processing_nodes.py`).  The registry is modelled restricted
to these two types. -/

/-- A schema input/output pin (`NodePin`): `default = none` models a
Python `default_value` of `None`. -/
structure NodePin where
  name : String
  type : String
  required : Bool
  default : Option Value
  deriving DecidableEq, Repr

/-- A schema property declaration; `default = none` models `None`. -/
structure SchemaProp where
  type : String
  default : Option Value
  deriving DecidableEq, Repr

/-- A node type schema (`NodeSchema`), keeping the fields the engine and
executor read. -/
structure NodeSchema where
  node_type : String
  inputs : List NodePin
  outputs : List NodePin
  properties : List (String × SchemaProp)
  required_properties : List String
  deriving DecidableEq, Repr

/-- `TextInputNode.get_schema`. -/
def textInputSchema : NodeSchema :=
  { node_type := "text_input"
    inputs := []
    outputs := [{ name := "text", type := "string", required := false, default := none }]
    properties := [("text", { type := "text", default := some (.str "") })]
    required_properties := ["text"] }

/-- `TextProcessorNode.get_schema`. -/
def textProcessorSchema : NodeSchema :=
  { node_type := "text_processor"
    inputs := [{ name := "text", type := "string", required := true, default := none }]
    outputs := [{ name := "result", type := "string", required := false, default := none },
                { name := "length", type := "number", required := false, default := none }]
    properties := [("operation", { type := "select", default := some (.str "uppercase") }),
                   ("find_text", { type := "string", default := some (.str "") }),
                   ("replace_text", { type := "string", default := some (.str "") }),
                   ("regex_pattern", { type := "string", default := some (.str "") })]
    required_properties := ["operation"] }

/-- The node registry restricted to the node types exercised by the
claims (`NodeFactory.node_schemas`). -/
def getNodeSchema (ty : String) : Option NodeSchema :=
  if ty == "text_input" then some textInputSchema
  else if ty == "text_processor" then some textProcessorSchema
  else none

/-- `NodeFactory.is_valid_node_type` on the modelled registry. -/
def isValidNodeType (ty : String) : Bool := (getNodeSchema ty).isSome

/-- `BaseNode` filling missing properties with the non-`None` schema
defaults on construction. -/
def initProps (schemaProps : List (String × SchemaProp))
    (props : List (String × Value)) : List (String × Value) :=
  schemaProps.foldl (fun ps p =>
    if dmem ps p.1 then ps
    else
      match p.2.default with
      | some v => dset ps p.1 v
      | none => ps) props

/-- `BaseNode.get_property`. -/
def getProp (props : List (String × Value)) (name : String) (default : Value) : Value :=
  (dget props name).getD default

/-- `BaseNode._validate_inputs`: missing required inputs either receive
their non-`None` default or produce an accumulated error. -/
def validateInputs (pins : List NodePin) (inputs : List (String × Value)) :
    Except String (List (String × Value)) :=
  let st := pins.foldl (fun (st : List (String × Value) × List String) pin =>
    if pin.required && !(dmem st.1 pin.name) then
      match pin.default with
      | some v => (dset st.1 pin.name v, st.2)
      | none => (st.1, st.2 ++ ["Required input " ++ pin.name ++ " is missing"])
    else st) (inputs, [])
  if st.2 = [] then Except.ok st.1
  else Except.error ("Input validation failed: " ++ String.intercalate "; " st.2)

/-- `TextInputNode.process`. -/
def textInputProcess (props : List (String × Value)) :
    Except String (List (String × Value)) :=
  Except.ok [("text", getProp props "text" (.str ""))]

/-- Python `str.title`: uppercase a letter that follows a non-letter,
lowercase the other letters (ASCII rendering). -/
def pyTitle (s : String) : String := ⟨go false s.data⟩ where
  go : Bool → List Char → List Char
    | _, [] => []
    | prevAlpha, c :: cs =>
      if c.isAlpha then
        (if prevAlpha then c.toLower else c.toUpper) :: go true cs
      else c :: go false cs

theorem dropWhile_length_le {α : Type} (p : α → Bool) :
    ∀ l : List α, (l.dropWhile p).length ≤ l.length
  | [] => Nat.le_refl 0
  | c :: cs => by
    rw [List.dropWhile_cons]
    by_cases h : p c = true
    · simp only [h, if_true]
      exact Nat.le_trans (dropWhile_length_le p cs) (Nat.le_succ _)
    · simp [h]

/-- Maximal digit runs of a character list, as produced by
Python `re.findall` with a digit-run pattern. -/
def digitRuns : List Char → List String
  | [] => []
  | c :: cs =>
    if c.isDigit then
      String.mk (c :: cs.takeWhile Char.isDigit) ::
        digitRuns (cs.dropWhile Char.isDigit)
    else digitRuns cs
termination_by l => l.length
decreasing_by
  · simpa using Nat.lt_succ_of_le (dropWhile_length_le Char.isDigit cs)
  · simp

/-- Python `str.upper` (ASCII rendering, at the character-list level so
that the kernel can evaluate it). -/
def pyUpper (s : String) : String := String.mk (s.data.map Char.toUpper)

/-- Python `str.lower` (ASCII rendering). -/
def pyLower (s : String) : String := String.mk (s.data.map Char.toLower)

/-- Python `str.strip` with no argument: drop whitespace on both ends. -/
def pyStrip (s : String) : String :=
  String.mk
    (((s.data.dropWhile Char.isWhitespace).reverse.dropWhile Char.isWhitespace).reverse)

/-- Python `str.replace`: replace the non-overlapping occurrences left to
right.  The caller guards against an empty needle (`if find_text:`), so
the fuel, bounded by the text length, is sufficient. -/
def replaceAux (f r : List Char) : Nat → List Char → List Char
  | _, [] => []
  | 0, l => l
  | fuel + 1, c :: cs =>
    if f ≠ [] ∧ f.isPrefixOf (c :: cs) then
      r ++ replaceAux f r fuel ((c :: cs).drop f.length)
    else c :: replaceAux f r fuel cs

/-- Python `str.replace` on strings. -/
def pyReplace (s f r : String) : String :=
  String.mk (replaceAux f.data r.data s.data.length s.data)

/-- Python `str.split()` without arguments: whitespace runs separate the
words, empty fragments are dropped. -/
def wordsAux : Nat → List Char → List String
  | 0, _ => []
  | fuel + 1, l =>
    let l1 := l.dropWhile Char.isWhitespace
    if l1 = [] then []
    else
      String.mk (l1.takeWhile (fun c => !c.isWhitespace)) ::
        wordsAux fuel (l1.dropWhile (fun c => !c.isWhitespace))

/-- Python `str.split()` on strings. -/
def pyWords (s : String) : List String := wordsAux (s.data.length + 1) s.data

/-- `TextProcessorNode.process`.  `rf` stands for `re.findall` on the
user-supplied `regex_pattern`, which is outside the model; every claim
runs with `regex_pattern = ""`, where `rf` is never consulted.  A
non-string `text` value makes the string methods raise, modelled as a
TypeError result. -/
def textProcessorProcess (rf : String → String → Except String (List String))
    (props inputs : List (String × Value)) :
    Except String (List (String × Value)) := do
  let text := (dget inputs "text").getD (.str "")
  let operation := getProp props "operation" (.str "uppercase")
  let find_text := getProp props "find_text" (.str "")
  let replace_text := getProp props "replace_text" (.str "")
  let regex_pattern := getProp props "regex_pattern" (.str "")
  match text with
  | .str s =>
    let result ←
      if operation = .str "uppercase" then pure (pyUpper s)
      else if operation = .str "lowercase" then pure (pyLower s)
      else if operation = .str "title_case" then pure (pyTitle s)
      else if operation = .str "strip" then pure (pyStrip s)
      else if operation = .str "reverse" then pure (String.mk s.data.reverse)
      else if operation = .str "remove_spaces" then
        pure (String.mk (s.data.filter (fun c => !c.isWhitespace)))
      else if operation = .str "replace" then
        if find_text.truthy then
          match find_text, replace_text with
          | .str f, .str r => pure (pyReplace s f r)
          | _, _ => Except.error "TypeError"
        else pure s
      else if operation = .str "extract_numbers" then
        pure (String.intercalate " " (digitRuns s.data))
      else if operation = .str "word_count" then
        pure (toString (pyWords s).length)
      else pure s
    let final ←
      match regex_pattern with
      | .str p =>
        if p = "" then pure result
        else
          match rf p result with
          | .ok ms =>
            pure (if ms = [] then "" else String.intercalate " " ms)
          | .error e => Except.error ("Invalid regex pattern: " ++ e)
      | v => if v.truthy then Except.error "TypeError" else pure result
    pure [("result", .str final), ("length", .int (final.length : Int))]
  | _ => Except.error "TypeError"

/-- `NodeFactory.create_node_instance` followed by `SimpleNode.execute`
(validate the inputs against the schema, run `process`; an unknown type
raises).  `handle_error` re-raises, so a failure inside `process` or the
input validation surfaces as the error value. -/
def runNodeInstance (rf : String → String → Except String (List String))
    (nd : NodeData) (inputs : List (String × Value)) :
    Except String (List (String × Value)) :=
  if nd.type == "text_input" then
    let props := initProps textInputSchema.properties nd.properties
    match validateInputs textInputSchema.inputs inputs with
    | .error e => .error e
    | .ok _ => textInputProcess props
  else if nd.type == "text_processor" then
    let props := initProps textProcessorSchema.properties nd.properties
    match validateInputs textProcessorSchema.inputs inputs with
    | .error e => .error e
    | .ok ins => textProcessorProcess rf props ins
  else .error ("Unknown node type: " ++ nd.type)

/-!  ## The single-run executor (`WorkflowExecution.execute`)

The stop flag is written by another thread and read once per node
boundary; the reads are modelled by a function `stop : Nat → Bool` of
the boundary index. -/

/-- The observable state of one `WorkflowExecution`.  `trace` records the
`on_node_update` callbacks in order. -/
structure ExecState where
  status : String
  execution_order : List String
  completed_nodes : List String
  failed_nodes : List String
  node_outputs : List (String × List (String × Value))
  errors : List String
  trace : List (String × String)
  deriving DecidableEq, Repr

/-- `WorkflowExecution._prepare_node_inputs`: route every already
produced `from_pin` output along the connections into this node. -/
def prepareInputs (wd : Workflow) (outs : List (String × List (String × Value)))
    (n : String) : List (String × Value) :=
  (wd.connections.map Prod.snd).foldl (fun acc c =>
    if c.to_node == n then
      match dget outs c.from_node with
      | some souts =>
        match dget souts c.from_pin with
        | some v => dset acc c.to_pin v
        | none => acc
      | none => acc
    else acc) []

/-- `WorkflowExecution._is_critical_node`:
`properties.get("critical", False)` under Python truthiness. -/
def isCriticalNode (wd : Workflow) (n : String) : Bool :=
  match dget wd.nodes n with
  | none => false
  | some nd =>
    match dget nd.properties "critical" with
    | some v => v.truthy
    | none => false

/-- `WorkflowExecution._execute_node`: look the node up, emit the
`running` update, instantiate and run it, emit `success` or `error`.
A node id absent from the nodes dict raises before any update is
emitted. -/
def execNode (rf : String → String → Except String (List String))
    (wd : Workflow) (outs : List (String × List (String × Value))) (n : String) :
    Except String (List (String × Value)) × List (String × String) :=
  match dget wd.nodes n with
  | none => (.error "KeyError", [])
  | some nd =>
    match runNodeInstance rf nd (prepareInputs wd outs n) with
    | .ok out => (.ok out, [(n, "running"), (n, "success")])
    | .error e => (.error e, [(n, "running"), (n, "error")])

/-- The node loop of `WorkflowExecution.execute`: check the stop flag at
each boundary, run the node, record the outcome; a critical failure
aborts with `failed`; after the last node the status becomes
`completed_with_errors` or `completed`. -/
def execLoop (rf : String → String → Except String (List String))
    (wd : Workflow) (stop : Nat → Bool) :
    List String → Nat → ExecState → ExecState
  | [], _, st =>
    if st.failed_nodes ≠ [] then { st with status := "completed_with_errors" }
    else { st with status := "completed" }
  | n :: rest, k, st =>
    if stop k then { st with status := "stopped" }
    else
      match (execNode rf wd st.node_outputs n).1 with
      | .ok out =>
        execLoop rf wd stop rest (k + 1)
          { st with trace := st.trace ++ (execNode rf wd st.node_outputs n).2,
                    completed_nodes := st.completed_nodes ++ [n],
                    node_outputs := dset st.node_outputs n out }
      | .error e =>
        if isCriticalNode wd n then
          { st with status := "failed",
                    trace := st.trace ++ (execNode rf wd st.node_outputs n).2,
                    errors := st.errors ++ ["Node " ++ n ++ " failed: " ++ e],
                    failed_nodes := st.failed_nodes ++ [n] }
        else
          execLoop rf wd stop rest (k + 1)
            { st with trace := st.trace ++ (execNode rf wd st.node_outputs n).2,
                      errors := st.errors ++ ["Node " ++ n ++ " failed: " ++ e],
                      failed_nodes := st.failed_nodes ++ [n] }

/-- The state at the top of `WorkflowExecution.execute`. -/
def initExecState : ExecState :=
  { status := "running", execution_order := [], completed_nodes := [],
    failed_nodes := [], node_outputs := [], errors := [], trace := [] }

/-- `WorkflowExecution.execute`: build the order (a cycle error is caught
by the outer handler and yields `failed`), then run the node loop. -/
def executeRun (rf : String → String → Except String (List String))
    (wd : Workflow) (stop : Nat → Bool) : ExecState :=
  match buildExecutionOrder wd with
  | .error e =>
    { initExecState with status := "failed",
                         errors := ["Workflow execution failed: " ++ e] }
  | .ok order => execLoop rf wd stop order 0 { initExecState with execution_order := order }

/-- A placeholder for `re.findall` when no claim exercises a regex. -/
def noRegex : String → String → Except String (List String) :=
  fun _ _ => Except.error "regex is outside the model"

/-!  ## The engine (`src/workflow/engine.py`)

Workflow validation, the pin type compatibility tables (the engine has
its own copy of the table, distinct from the one in
`src/nodes/node_factory.py`), and the submitted task
`_execute_workflow_internal`. -/

/-- `WorkflowEngine._are_types_compatible` (the copy inside the engine,
used by the validator).  Its table has no `list`/`array` entries. -/
def engineTypesCompatible (from_type to_type : String) : Bool :=
  if from_type == "any" || to_type == "any" then true
  else if from_type == to_type then true
  else
    let rules : List (String × List String) :=
      [("string", ["text"]),
       ("text", ["string"]),
       ("number", ["integer", "float"]),
       ("integer", ["number", "float"]),
       ("float", ["number", "integer"]),
       ("object", ["json", "dict"]),
       ("json", ["object", "dict"]),
       ("dict", ["object", "json"])]
    ((dget rules from_type).getD []).contains to_type

/-- `NodeFactory._are_types_compatible`: the factory table additionally
holds the `list`/`array` pair. -/
def factoryTypesCompatible (from_type to_type : String) : Bool :=
  if from_type == "any" || to_type == "any" then true
  else if from_type == to_type then true
  else
    let rules : List (String × List String) :=
      [("string", ["text"]),
       ("text", ["string"]),
       ("number", ["integer", "float"]),
       ("integer", ["number", "float"]),
       ("float", ["number", "integer"]),
       ("object", ["json", "dict"]),
       ("json", ["object", "dict"]),
       ("dict", ["object", "json"]),
       ("list", ["array"]),
       ("array", ["list"])]
    ((dget rules from_type).getD []).contains to_type

/-- `WorkflowEngine._validate_node`: type and position present, type
registered, required properties present.  An unknown type makes
`get_node_info` raise, which the property check turns into one more
error. -/
def validateNode (nid : String) (nd : NodeData) : List String :=
  (if nd.type = "" then ["Node " ++ nid ++ ": Missing node type"] else [])
  ++ (if nd.position.isNone then ["Node " ++ nid ++ ": Missing position"] else [])
  ++ (if nd.type ≠ "" && !isValidNodeType nd.type then
        ["Node " ++ nid ++ ": Unknown node type " ++ nd.type] else [])
  ++ (if nd.type ≠ "" then
        match getNodeSchema nd.type with
        | none => ["Node " ++ nid ++ ": Property validation error: Unknown node type: " ++ nd.type]
        | some sch =>
          (sch.required_properties.filter (fun rp => !dmem nd.properties rp)).map
            (fun rp => "Node " ++ nid ++ ": Missing required property " ++ rp)
      else [])

/-- `WorkflowEngine._validate_pin_compatibility`: the named pins must
exist on the serialized pin lists of both nodes and their types must be
compatible under the engine table. -/
def validatePinCompatibility (c : Connection) (nodes : List (String × NodeData)) :
    List String :=
  match dget nodes c.from_node, dget nodes c.to_node with
  | some ndFrom, some ndTo =>
    match ndFrom.outputs.find? (fun p => p.name == c.from_pin) with
    | none => ["Output pin " ++ c.from_pin ++ " not found in source node"]
    | some fp =>
      match ndTo.inputs.find? (fun p => p.name == c.to_pin) with
      | none => ["Input pin " ++ c.to_pin ++ " not found in target node"]
      | some tp =>
        if engineTypesCompatible fp.type tp.type then []
        else ["Incompatible types: " ++ fp.type ++ " -> " ++ tp.type]
  | _, _ => ["Pin compatibility check error"]

/-- `WorkflowEngine._validate_connection`: referenced nodes must exist
(a falsy id is skipped), then the pins are checked. -/
def validateConnection (cid : String) (c : Connection)
    (nodes : List (String × NodeData)) : List String :=
  (if c.from_node ≠ "" && !dmem nodes c.from_node then
     ["Connection " ++ cid ++ ": Source node " ++ c.from_node ++ " not found"] else [])
  ++ (if c.to_node ≠ "" && !dmem nodes c.to_node then
        ["Connection " ++ cid ++ ": Target node " ++ c.to_node ++ " not found"] else [])
  ++ (if c.from_node ≠ "" && c.to_node ≠ "" && dmem nodes c.from_node
        && dmem nodes c.to_node then
        validatePinCompatibility c nodes
      else [])

/-- The adjacency lists of `_check_circular_dependencies`: note this
pass, unlike the execution order builder, keeps every connection whose
source node exists. -/
def adjOf (wd : Workflow) (n : String) : List String :=
  if n ∈ nodeIds wd then
    ((wd.connections.map Prod.snd).filter (fun c => c.from_node == n)).map
      (fun c => c.to_node)
  else []

mutual

/-- The `has_cycle` DFS of `_check_circular_dependencies`: `visited`
persists; `stack` is the recursion stack. -/
def dfsCycle (adj : String → List String) :
    Nat → List String → List String → String → Bool × List String
  | 0, visited, _, _ => (true, visited)
  | fuel + 1, visited, stack, n =>
    if n ∈ stack then (true, visited)
    else if n ∈ visited then (false, visited)
    else dfsKids adj fuel (visited ++ [n]) (stack ++ [n]) (adj n)

/-- The neighbor loop of `has_cycle`. -/
def dfsKids (adj : String → List String) :
    Nat → List String → List String → List String → Bool × List String
  | _, visited, _, [] => (false, visited)
  | 0, visited, _, _ :: _ => (true, visited)
  | fuel + 1, visited, stack, m :: ms =>
    match dfsCycle adj fuel visited stack m with
    | (true, v) => (true, v)
    | (false, v) => dfsKids adj fuel v stack ms

end

/-- The top loop of `_check_circular_dependencies`: visit each node once,
stop at the first cycle. -/
def checkCircularLoop (adj : String → List String) (fuel : Nat) :
    List String → List String → List String
  | [], _ => []
  | n :: rest, visited =>
    if n ∈ visited then checkCircularLoop adj fuel rest visited
    else
      match dfsCycle adj fuel visited [] n with
      | (true, _) => ["Circular dependency detected in workflow"]
      | (false, v) => checkCircularLoop adj fuel rest v

/-- `WorkflowEngine._check_circular_dependencies`.  The fuel bounds the
recursion depth generously; the Python recursion depth is bounded by the
node count, and every extra unit only pads unreachable branches. -/
def checkCircularDeps (wd : Workflow) : List String :=
  checkCircularLoop (adjOf wd)
    ((wd.nodes.length + 1) * (wd.connections.length + wd.nodes.length + 1))
    (nodeIds wd) []

/-- `WorkflowEngine.validate_workflow`: node errors, connection errors,
the cycle check, and the final nodes-without-connections error, all in
one list. -/
def validateWorkflow (wd : Workflow) : List String :=
  ((wd.nodes.map (fun p => validateNode p.1 p.2)).flatten)
  ++ ((wd.connections.map (fun p => validateConnection p.1 p.2 wd.nodes)).flatten)
  ++ checkCircularDeps wd
  ++ (if wd.nodes ≠ [] ∧ wd.connections = [] then
        ["Workflow has nodes but no connections"] else [])

/-- `WorkflowEngine._execute_workflow_internal`, as observed through the
completion callback: validation errors raise, so `on_complete` receives
`(False, message)` and node execution never starts; otherwise
`execution.execute()` returns (it catches its own failures) and
`on_complete` receives `(True, "")` whatever the terminal run status
was.  The third component is the run state, `none` when no node
execution happened. -/
def engineRunInternal (rf : String → String → Except String (List String))
    (wd : Workflow) (stop : Nat → Bool) : Bool × String × Option ExecState :=
  let errs := validateWorkflow wd
  if errs ≠ [] then
    (false, "Workflow validation failed: " ++ String.intercalate ", " errs, none)
  else (true, "", some (executeRun rf wd stop))

/-!  ## The active-run table (`WorkflowEngine.stop_execution`)

The engine holds `active_executions`, a dict from execution id to the
`WorkflowExecution` object.  The objects survive the table (the worker
threads hold references), so the model separates the object heap
(`execs`) from the id table (`activeIds`). -/

/-- The per-object state `stop` mutates:
`stop_requested = True`, `status = "stopping"`. -/
structure ExecRef where
  stop_requested : Bool
  status : String
  deriving DecidableEq, Repr

/-- `WorkflowExecution.stop`. -/
def stopRef (_e : ExecRef) : ExecRef :=
  { stop_requested := true, status := "stopping" }

/-- The engine state the stop/status API reads: the object heap and the
active-run table (modelled as the list of registered ids into the
heap). -/
structure EngineTable where
  execs : List (String × ExecRef)
  activeIds : List String
  deriving DecidableEq, Repr

/-- `WorkflowEngine.stop_execution`: with an id, stop that run and leave
the table alone; with `None`, stop every active run and clear the
table. -/
def stopExecution (t : EngineTable) (eid : Option String) : EngineTable :=
  match eid with
  | some i =>
    if i ∈ t.activeIds then
      { t with execs := t.execs.map (fun p => if p.1 == i then (p.1, stopRef p.2) else p) }
    else t
  | none =>
    { execs := t.execs.map (fun p =>
        if p.1 ∈ t.activeIds then (p.1, stopRef p.2) else p),
      activeIds := [] }

/-- `WorkflowEngine.get_execution_status`: `None` once the id has left
the table, a status snapshot otherwise. -/
def getExecutionStatus (t : EngineTable) (i : String) : Option String :=
  if i ∈ t.activeIds then (dget t.execs i).map (fun e => e.status) else none

/-- `WorkflowEngine.is_execution_running`. -/
def isExecutionRunning (t : EngineTable) (i : String) : Bool := i ∈ t.activeIds

/-- `WorkflowEngine.has_active_executions`. -/
def hasActiveExecutions (t : EngineTable) : Bool := t.activeIds ≠ []

end WorkflowBuilder

namespace WorkflowBuilder

/-!  ## Concrete workflows used by the claims -/

/-- The two-node scenario of the spec: `n1 : text_input` with
`text = "abc"`, `n2 : text_processor` with `operation = "uppercase"`,
connected `n1.text -> n2.text`. -/
def gAbc : Workflow :=
  { nodes :=
      [("n1", { type := "text_input", position := some (0, 0),
                properties := [("text", .str "abc")],
                inputs := [],
                outputs := [{ name := "text", type := "string" }] }),
       ("n2", { type := "text_processor", position := some (200, 0),
                properties := [("operation", .str "uppercase")],
                inputs := [{ name := "text", type := "string" }],
                outputs := [{ name := "result", type := "string" },
                            { name := "length", type := "number" }] })],
    connections :=
      [("c1", { from_node := "n1", from_pin := "text",
                to_node := "n2", to_pin := "text" })] }

/-- Three independent nodes; `n2` is a `text_processor` with no incoming
connection, so its required `text` input is missing and its execution
raises.  No node is critical. -/
def gThree : Workflow :=
  { nodes :=
      [("n1", { type := "text_input", position := some (0, 0),
                properties := [("text", .str "hello")],
                inputs := [],
                outputs := [{ name := "text", type := "string" }] }),
       ("n2", { type := "text_processor", position := some (0, 100),
                properties := [("operation", .str "uppercase")],
                inputs := [{ name := "text", type := "string" }],
                outputs := [{ name := "result", type := "string" },
                            { name := "length", type := "number" }] }),
       ("n3", { type := "text_input", position := some (0, 200),
                properties := [("text", .str "world")],
                inputs := [],
                outputs := [{ name := "text", type := "string" }] })],
    connections := [] }

/-- A three-node sequential chain `n1 -> n2 -> n3`. -/
def gChain : Workflow :=
  { nodes :=
      [("n1", { type := "text_input", position := some (0, 0),
                properties := [("text", .str "hi")],
                inputs := [],
                outputs := [{ name := "text", type := "string" }] }),
       ("n2", { type := "text_processor", position := some (200, 0),
                properties := [("operation", .str "uppercase")],
                inputs := [{ name := "text", type := "string" }],
                outputs := [{ name := "result", type := "string" },
                            { name := "length", type := "number" }] }),
       ("n3", { type := "text_processor", position := some (400, 0),
                properties := [("operation", .str "lowercase")],
                inputs := [{ name := "text", type := "string" }],
                outputs := [{ name := "result", type := "string" },
                            { name := "length", type := "number" }] })],
    connections :=
      [("c1", { from_node := "n1", from_pin := "text",
                to_node := "n2", to_pin := "text" }),
       ("c2", { from_node := "n2", from_pin := "result",
                to_node := "n3", to_pin := "text" })] }

/-- A single registered node with its required property and a position,
and no connections at all. -/
def gSingle : Workflow :=
  { nodes :=
      [("n1", { type := "text_input", position := some (0, 0),
                properties := [("text", .str "x")],
                inputs := [],
                outputs := [{ name := "text", type := "string" }] })],
    connections := [] }

/-- `gAbc` with the property of `n2` mutated to `operation = "lowercase"`
after submission. -/
def gAbcMut : Workflow :=
  { gAbc with nodes :=
      [("n1", { type := "text_input", position := some (0, 0),
                properties := [("text", .str "abc")],
                inputs := [],
                outputs := [{ name := "text", type := "string" }] }),
       ("n2", { type := "text_processor", position := some (200, 0),
                properties := [("operation", .str "lowercase")],
                inputs := [{ name := "text", type := "string" }],
                outputs := [{ name := "result", type := "string" },
                            { name := "length", type := "number" }] })] }

/-!  ## Properties of the Kahn loop

The invariant ties the in-degree table to the dependency lists: for every
node, its in-degree equals the number of its dependencies not yet in the
result, the queue holds exactly ready nodes, and the result lists every
node after all of its dependencies. -/

/-- Every element of `r` appears after all of its dependencies. -/
def DepsClosed (deps : String → List String) (r : List String) : Prop :=
  ∀ i (h : i < r.length), ∀ d ∈ deps (r.get ⟨i, h⟩), d ∈ r.take i

theorem depsClosed_nil (deps : String → List String) : DepsClosed deps [] :=
  fun i h => absurd h (by simp)

theorem DepsClosed.mem_subset {deps : String → List String} {r : List String}
    (hc : DepsClosed deps r) {x : String} (hx : x ∈ r) : ∀ d ∈ deps x, d ∈ r := by
  obtain ⟨i, hi⟩ := List.mem_iff_get.mp hx
  intro d hd
  exact List.take_subset _ _ (hc i.1 i.2 d (by rwa [hi]))

theorem DepsClosed.snoc {deps : String → List String} {r : List String}
    (hc : DepsClosed deps r) {c : String} (hcr : ∀ d ∈ deps c, d ∈ r) :
    DepsClosed deps (r ++ [c]) := by
  intro i h d hd
  rcases Nat.lt_or_ge i r.length with hi | hi
  · have hg : (r ++ [c]).get ⟨i, h⟩ = r.get ⟨i, hi⟩ := List.getElem_append_left hi
    rw [List.take_append_of_le_length (Nat.le_of_lt hi)]
    exact hc i hi d (by rwa [hg] at hd)
  · have hie : i = r.length := by
      have hlen : (r ++ [c]).length = r.length + 1 := by simp
      omega
    subst hie
    have hg : (r ++ [c]).get ⟨r.length, h⟩ = c := by simp
    rw [List.take_append_of_le_length (Nat.le_refl _)]
    simp only [List.take_length]
    exact hcr d (by rwa [hg] at hd)

theorem decStep_fst (deps : String → List String) (current : String) :
    ∀ (ns : List String), ns.Nodup → ∀ (indeg : String → Int) (queue : List String)
      (x : String),
      (decStep deps current ns indeg queue).1 x
        = if x ∈ ns ∧ current ∈ deps x then indeg x - 1 else indeg x
  | [], _, indeg, queue, x => by simp [decStep]
  | n :: rest, hnd, indeg, queue, x => by
    have hn : n ∉ rest := (List.nodup_cons.mp hnd).1
    have hrest : rest.Nodup := (List.nodup_cons.mp hnd).2
    by_cases hcn : current ∈ deps n
    · rw [decStep, if_pos hcn,
        decStep_fst deps current rest hrest _ _ x]
      by_cases hx : x = n
      · subst hx
        simp [hn, hcn]
      · simp [hx, List.mem_cons]
    · rw [decStep, if_neg hcn, decStep_fst deps current rest hrest _ _ x]
      by_cases hx : x = n
      · subst hx
        simp [hn, hcn]
      · simp [hx, List.mem_cons]

theorem decStep_snd (deps : String → List String) (current : String) :
    ∀ (ns : List String), ns.Nodup → ∀ (indeg : String → Int) (queue : List String),
      (decStep deps current ns indeg queue).2
        = queue ++ ns.filter (fun n => decide (current ∈ deps n) && decide (indeg n - 1 = 0))
  | [], _, indeg, queue => by simp [decStep]
  | n :: rest, hnd, indeg, queue => by
    have hn : n ∉ rest := (List.nodup_cons.mp hnd).1
    have hrest : rest.Nodup := (List.nodup_cons.mp hnd).2
    by_cases hcn : current ∈ deps n
    · rw [decStep, if_pos hcn, decStep_snd deps current rest hrest]
      have hcong : rest.filter
          (fun m => decide (current ∈ deps m) &&
            decide ((fun y => if y = n then indeg n - 1 else indeg y) m - 1 = 0))
          = rest.filter (fun m => decide (current ∈ deps m) && decide (indeg m - 1 = 0)) := by
        refine List.filter_congr ?_
        intro m hm
        have : m ≠ n := fun he => hn (he ▸ hm)
        simp [this]
      rw [hcong, List.filter_cons]
      by_cases hd : indeg n - 1 = 0
      · rw [if_pos hd]
        simp [hcn, hd, List.append_assoc]
      · rw [if_neg hd]
        simp [hcn, hd]
    · rw [decStep, if_neg hcn, decStep_snd deps current rest hrest, List.filter_cons]
      simp [hcn]

/-- Counting helper: extending the executed set by a fresh node removes
exactly one element from the pending-dependency filter when the node is
a dependency, none otherwise. -/
theorem filter_notmem_snoc_length :
    ∀ (l : List String), l.Nodup → ∀ (result : List String) (a : String), a ∉ result →
      ((l.filter (fun d => decide (d ∉ result ++ [a]))).length : Int)
        = ((l.filter (fun d => decide (d ∉ result))).length : Int)
          - (if a ∈ l then 1 else 0)
  | [], _, result, a, _ => by simp
  | c :: cs, hnd, result, a, ha => by
    have hc : c ∉ cs := (List.nodup_cons.mp hnd).1
    have hcs : cs.Nodup := (List.nodup_cons.mp hnd).2
    have ih := filter_notmem_snoc_length cs hcs result a ha
    by_cases hca : c = a
    · subst hca
      have hacs : c ∉ cs := hc
      have h1 : (c ∈ result ++ [c]) := by simp
      have hcong : cs.filter (fun d => decide (d ∉ result ++ [c]))
          = cs.filter (fun d => decide (d ∉ result)) := by
        refine List.filter_congr ?_
        intro m hm
        have hmc : m ≠ c := fun he => hacs (he ▸ hm)
        simp [hmc]
      rw [List.filter_cons, List.filter_cons, hcong]
      simp [h1, ha, hacs]
    · have h2 : (c ∈ result ++ [a]) ↔ (c ∈ result) := by simp [hca]
      have hac : a ≠ c := fun he => hca he.symm
      have hmem : (a ∈ c :: cs) ↔ (a ∈ cs) := by simp [List.mem_cons, hac]
      rw [List.filter_cons, List.filter_cons]
      by_cases hcr : c ∈ result
      · have e1 : decide (c ∉ result ++ [a]) = false := by simp [h2, hcr]
        have e2 : decide (c ∉ result) = false := by simp [hcr]
        rw [e1, e2]
        simp only [if_false, Bool.false_eq_true]
        rw [ih]
        by_cases haz : a ∈ cs <;> simp [haz, hmem]
      · have e1 : decide (c ∉ result ++ [a]) = true := by simp [h2, hcr]
        have e2 : decide (c ∉ result) = true := by simp [hcr]
        rw [e1, e2]
        simp only [if_true, List.length_cons, hmem]
        by_cases haz : a ∈ cs <;> simp [haz] at ih ⊢ <;> omega

/-- The Kahn-loop invariant: the queue and result list registered nodes
without repetition, the in-degree of every node counts its dependencies
not yet executed, queued nodes are ready, and the result respects the
dependencies. -/
structure KahnInv (ns : List String) (deps : String → List String)
    (indeg : String → Int) (queue result : List String) : Prop where
  queue_sub : queue ⊆ ns
  result_sub : result ⊆ ns
  nodup : (result ++ queue).Nodup
  indeg_eq : ∀ n ∈ ns,
    indeg n = (((deps n).filter (fun d => decide (d ∉ result))).length : Int)
  queue_ready : ∀ q ∈ queue, ∀ d ∈ deps q, d ∈ result
  closed : DepsClosed deps result

theorem KahnInv.perm_queue {ns deps indeg queue result}
    (inv : KahnInv ns deps indeg queue result) {queue2 : List String}
    (h : List.Perm queue queue2) : KahnInv ns deps indeg queue2 result where
  queue_sub := fun _ hx => inv.queue_sub (h.symm.subset hx)
  result_sub := inv.result_sub
  nodup := (h.append_left result).nodup inv.nodup
  indeg_eq := inv.indeg_eq
  queue_ready := fun q hq => inv.queue_ready q (h.symm.subset hq)
  closed := inv.closed

theorem KahnInv.indeg_zero {ns deps indeg queue result}
    (inv : KahnInv ns deps indeg queue result) {n : String} (hn : n ∈ ns)
    (hr : ∀ d ∈ deps n, d ∈ result) : indeg n = 0 := by
  have hfil : (deps n).filter (fun d => decide (d ∉ result)) = [] := by
    refine List.filter_eq_nil_iff.mpr ?_
    intro d hd
    simp [hr d hd]
  rw [inv.indeg_eq n hn, hfil]
  simp

theorem kahnInv_step {ns : List String} {deps : String → List String}
    {indeg : String → Int} {current : String} {qs result : List String}
    (hns : ns.Nodup) (hdeps : ∀ n, (deps n).Nodup)
    (inv : KahnInv ns deps indeg (current :: qs) result) :
    KahnInv ns deps (decStep deps current ns indeg qs).1
      (decStep deps current ns indeg qs).2 (result ++ [current]) := by
  have hcur_ns : current ∈ ns := inv.queue_sub (List.mem_cons_self _ _)
  obtain ⟨hres_nd, hcq_nd, hdisj⟩ := List.nodup_append.mp inv.nodup
  have hcur_qs : current ∉ qs := (List.nodup_cons.mp hcq_nd).1
  have hqs_nd : qs.Nodup := (List.nodup_cons.mp hcq_nd).2
  have hcur_res : current ∉ result := fun hc =>
    hdisj hc (List.mem_cons_self _ _)
  have hready : ∀ d ∈ deps current, d ∈ result :=
    inv.queue_ready current (List.mem_cons_self _ _)
  have hqs_sub : qs ⊆ ns := fun x hx => inv.queue_sub (List.mem_cons_of_mem _ hx)
  have hqs_res : ∀ x ∈ qs, x ∉ result := fun x hx hr =>
    hdisj hr (List.mem_cons_of_mem _ hx)
  -- membership in the newly enqueued block
  have hA_mem : ∀ n,
      n ∈ ns.filter (fun n => decide (current ∈ deps n) && decide (indeg n - 1 = 0))
        ↔ n ∈ ns ∧ current ∈ deps n ∧ indeg n = 1 := by
    intro n
    rw [List.mem_filter]
    constructor
    · rintro ⟨h1, h2⟩
      simp only [Bool.and_eq_true, decide_eq_true_eq] at h2
      exact ⟨h1, h2.1, by omega⟩
    · rintro ⟨h1, h2, h3⟩
      refine ⟨h1, ?_⟩
      simp only [Bool.and_eq_true, decide_eq_true_eq]
      exact ⟨h2, by omega⟩
  have hA_not_res : ∀ n,
      n ∈ ns ∧ current ∈ deps n ∧ indeg n = 1 → n ∉ result := by
    rintro n ⟨h1, _, h3⟩ hr
    have : indeg n = 0 := inv.indeg_zero h1 (inv.closed.mem_subset hr)
    omega
  have hA_not_cur : ∀ n,
      n ∈ ns ∧ current ∈ deps n ∧ indeg n = 1 → n ≠ current := by
    rintro n ⟨h1, _, h3⟩ he
    subst he
    have : indeg n = 0 := inv.indeg_zero h1 hready
    omega
  have hA_not_qs : ∀ n,
      n ∈ ns ∧ current ∈ deps n ∧ indeg n = 1 → n ∉ qs := by
    rintro n ⟨h1, _, h3⟩ hq
    have : indeg n = 0 :=
      inv.indeg_zero h1 (inv.queue_ready n (List.mem_cons_of_mem _ hq))
    omega
  rw [decStep_snd deps current ns hns]
  constructor
  case queue_sub =>
    exact List.append_subset.mpr ⟨hqs_sub, List.filter_subset' ns⟩
  case result_sub =>
    refine List.append_subset.mpr ⟨inv.result_sub, ?_⟩
    intro x hx
    rw [List.mem_singleton] at hx
    exact hx ▸ hcur_ns
  case nodup =>
    rw [List.nodup_append]
    refine ⟨?_, ?_, ?_⟩
    · rw [List.nodup_append]
      refine ⟨hres_nd, List.nodup_singleton _, ?_⟩
      intro x hx hx2
      rw [List.mem_singleton] at hx2
      exact hcur_res (hx2 ▸ hx)
    · rw [List.nodup_append]
      refine ⟨hqs_nd, hns.filter _, ?_⟩
      intro x hx hx2
      exact hA_not_qs x ((hA_mem x).mp hx2) hx
    · intro x hx hx2
      rw [List.mem_append] at hx hx2
      rcases hx2 with hq | hA
      · rcases hx with hr | hc
        · exact hqs_res x hq hr
        · rw [List.mem_singleton] at hc
          exact hcur_qs (hc ▸ hq)
      · have hfacts := (hA_mem x).mp hA
        rcases hx with hr | hc
        · exact hA_not_res x hfacts hr
        · rw [List.mem_singleton] at hc
          exact hA_not_cur x hfacts hc
  case indeg_eq =>
    intro n hn
    rw [decStep_fst deps current ns hns]
    have hcount := filter_notmem_snoc_length (deps n) (hdeps n) result current hcur_res
    by_cases hc : current ∈ deps n
    · rw [if_pos ⟨hn, hc⟩, inv.indeg_eq n hn, hcount]
      simp [hc]
    · rw [if_neg (fun hk => hc hk.2), inv.indeg_eq n hn, hcount]
      simp [hc]
  case queue_ready =>
    intro q hq d hd
    rw [List.mem_append] at hq
    rcases hq with hq | hA
    · exact List.mem_append_left _ (inv.queue_ready q (List.mem_cons_of_mem _ hq) d hd)
    · obtain ⟨hq_ns, hq_dep, hq_one⟩ := (hA_mem q).mp hA
      have hlen : ((deps q).filter (fun d => decide (d ∉ result))).length = 1 := by
        have := inv.indeg_eq q hq_ns
        omega
      obtain ⟨b, hb⟩ := List.length_eq_one.mp hlen
      have hcur_in : current ∈ (deps q).filter (fun d => decide (d ∉ result)) :=
        List.mem_filter.mpr ⟨hq_dep, by simp [hcur_res]⟩
      rw [hb, List.mem_singleton] at hcur_in
      by_cases hdr : d ∈ result
      · exact List.mem_append_left _ hdr
      · have : d ∈ (deps q).filter (fun d => decide (d ∉ result)) :=
          List.mem_filter.mpr ⟨hd, by simp [hdr]⟩
        rw [hb, List.mem_singleton] at this
        rw [this, ← hcur_in]
        simp
  case closed =>
    exact inv.closed.snoc hready

theorem kahnLoop_inv {ns : List String} {deps : String → List String}
    (hns : ns.Nodup) (hdeps : ∀ n, (deps n).Nodup) :
    ∀ (fuel : Nat) (indeg : String → Int) (queue result : List String),
      KahnInv ns deps indeg queue result →
        DepsClosed deps (kahnLoop ns deps fuel indeg queue result)
        ∧ (kahnLoop ns deps fuel indeg queue result).Nodup
        ∧ (kahnLoop ns deps fuel indeg queue result) ⊆ ns
  | 0, indeg, queue, result, inv => by
    rw [kahnLoop]
    exact ⟨inv.closed, (List.nodup_append.mp inv.nodup).1, inv.result_sub⟩
  | fuel + 1, indeg, queue, result, inv => by
    rw [kahnLoop]
    rcases hsort : List.insertionSort pyLe queue with _ | ⟨current, qs⟩
    · exact ⟨inv.closed, (List.nodup_append.mp inv.nodup).1, inv.result_sub⟩
    · have hperm : List.Perm queue (current :: qs) :=
        (hsort ▸ (List.perm_insertionSort pyLe queue)).symm
      have inv2 := inv.perm_queue hperm
      have inv3 := kahnInv_step hns hdeps inv2
      exact kahnLoop_inv hns hdeps fuel _ _ _ inv3

theorem kahnInv_init (wd : Workflow) (hnd : (nodeIds wd).Nodup) :
    KahnInv (nodeIds wd) (depsOf wd)
      (fun n => ((depsOf wd n).length : Int))
      ((nodeIds wd).filter (fun n => ((depsOf wd n).length : Int) == 0)) [] where
  queue_sub := List.filter_subset' _
  result_sub := by simp
  nodup := by
    simp only [List.nil_append]
    exact hnd.filter _
  indeg_eq := by
    intro n _
    have hfil : (depsOf wd n).filter (fun d => decide (d ∉ ([] : List String)))
        = depsOf wd n := by
      refine List.filter_eq_self.mpr ?_
      intro a _
      simp
    rw [hfil]
  queue_ready := by
    intro q hq d hd
    have h0 := (List.mem_filter.mp hq).2
    rw [beq_iff_eq] at h0
    have : (depsOf wd q).length = 0 := by omega
    rw [List.length_eq_zero] at this
    rw [this] at hd
    cases hd
  closed := depsClosed_nil _

theorem buildExecutionOrder_props (wd : Workflow) (order : List String)
    (hnd : (nodeIds wd).Nodup)
    (h : buildExecutionOrder wd = Except.ok order) :
    DepsClosed (depsOf wd) order ∧ order.Nodup ∧ order ⊆ nodeIds wd
      ∧ order.length = (nodeIds wd).length := by
  have hdeps : ∀ n, (depsOf wd n).Nodup := fun n => List.nodup_dedup _
  simp only [buildExecutionOrder] at h
  split at h
  case isTrue hlen =>
    obtain rfl : _ = order := congrArg (fun e => match e with
      | Except.ok v => v
      | Except.error _ => []) h
    have := kahnLoop_inv hnd hdeps (nodeIds wd).length _ _ _ (kahnInv_init wd hnd)
    exact ⟨this.1, this.2.1, this.2.2, hlen⟩
  case isFalse => cases h

theorem indexOf_lt_of_mem_take {α : Type} [DecidableEq α] :
    ∀ (l : List α) (a : α) (n : Nat), a ∈ l.take n → List.indexOf a l < n
  | [], a, n, h => by simp at h
  | x :: xs, a, 0, h => by simp at h
  | x :: xs, a, n + 1, h => by
    rw [List.take_succ_cons] at h
    rcases List.mem_cons.mp h with he | hm
    · subst he
      rw [List.indexOf_cons_self]
      omega
    · by_cases hax : a = x
      · subst hax
        rw [List.indexOf_cons_self]
        omega
      · have := indexOf_lt_of_mem_take xs a n hm
        rw [List.indexOf_cons_ne _ (fun he => hax he.symm)]
        omega

theorem depsClosed_indexOf {deps : String → List String} {order : List String}
    (hcl : DepsClosed deps order) {x d : String} (hx : x ∈ order)
    (hd : d ∈ deps x) : List.indexOf d order < List.indexOf x order := by
  have hlt : List.indexOf x order < order.length := List.indexOf_lt_length.mpr hx
  have hget : order.get ⟨List.indexOf x order, hlt⟩ = x := List.indexOf_get hlt
  have hmem : d ∈ order.take (List.indexOf x order) := by
    refine hcl (List.indexOf x order) hlt d ?_
    rwa [hget]
  exact indexOf_lt_of_mem_take _ _ _ hmem

theorem mem_depsOf (wd : Workflow) (cid : String) (c : Connection)
    (hc : (cid, c) ∈ wd.connections) (h1 : c.from_node ≠ "") (h2 : c.to_node ≠ "")
    (h3 : c.from_node ∈ nodeIds wd) (h4 : c.to_node ∈ nodeIds wd) :
    c.from_node ∈ depsOf wd c.to_node := by
  simp only [depsOf, List.mem_dedup, List.mem_map]
  refine ⟨c, ?_, rfl⟩
  rw [List.mem_filter]
  refine ⟨List.mem_map.mpr ⟨(cid, c), hc, rfl⟩, ?_⟩
  simp [h1, h2, h3, h4]

/-- C6 (amended): for every graph with distinct node ids on which the
builder succeeds (equivalently, every graph it finds acyclic), and for
every connection `A -> B` whose endpoint ids are nonempty and present
among the nodes, A strictly precedes B in the returned execution order.
Connections with an empty endpoint id are dropped by the dependency
pass, which is why the nonemptiness conditions are required. -/
theorem claim_topological_order (wd : Workflow) (order : List String)
    (hnd : (nodeIds wd).Nodup)
    (h : buildExecutionOrder wd = Except.ok order)
    (cid : String) (c : Connection) (hc : (cid, c) ∈ wd.connections)
    (h1 : c.from_node ≠ "") (h2 : c.to_node ≠ "")
    (h3 : c.from_node ∈ nodeIds wd) (h4 : c.to_node ∈ nodeIds wd) :
    List.indexOf c.from_node order < List.indexOf c.to_node order := by
  obtain ⟨hcl, hnodup, hsub, hlen⟩ := buildExecutionOrder_props wd order hnd h
  have hperm : List.Perm order (nodeIds wd) :=
    List.Subperm.perm_of_length_le (List.subperm_of_subset hnodup hsub)
      (Nat.le_of_eq hlen.symm)
  have hto : c.to_node ∈ order := hperm.mem_iff.mpr h4
  exact depsClosed_indexOf hcl hto (mem_depsOf wd cid c hc h1 h2 h3 h4)

/-- A graph with a node whose id is the empty string: the builder drops
the connection `b -> ""` (the falsy-id guard), while the cycle check of
the validator keeps it and reports no cycle. -/
def gEmptyId : Workflow :=
  { nodes :=
      [("", { type := "text_input", position := some (0, 0),
              properties := [("text", .str "x")],
              inputs := [],
              outputs := [{ name := "text", type := "string" }] }),
       ("b", { type := "text_input", position := some (1, 1),
               properties := [("text", .str "y")],
               inputs := [],
               outputs := [{ name := "text", type := "string" }] })],
    connections := [("c1", { from_node := "b", from_pin := "p",
                             to_node := "", to_pin := "q" })] }

/-!  ## Determinism of the execution order

The loop only consults the node list, the dependency lists and the
in-degrees through membership, counting and sorting, so its result is
invariant under a permutation of the stored dicts. -/

theorem kahnLoop_congr :
    ∀ (fuel : Nat) (ns1 ns2 : List String) (deps1 deps2 : String → List String)
      (indeg1 indeg2 : String → Int) (q1 q2 res : List String),
      ns1.Nodup → List.Perm ns1 ns2 →
      (∀ n, (deps1 n).Nodup) →
      (∀ n, List.Perm (deps1 n) (deps2 n)) →
      (∀ x, indeg1 x = indeg2 x) →
      List.Perm q1 q2 →
      KahnInv ns1 deps1 indeg1 q1 res →
      KahnInv ns2 deps2 indeg2 q2 res →
      kahnLoop ns1 deps1 fuel indeg1 q1 res = kahnLoop ns2 deps2 fuel indeg2 q2 res
  | 0, ns1, ns2, deps1, deps2, indeg1, indeg2, q1, q2, res,
      _, _, _, _, _, _, _, _ => by
    rw [kahnLoop, kahnLoop]
  | fuel + 1, ns1, ns2, deps1, deps2, indeg1, indeg2, q1, q2, res,
      hns1, hns, hdeps1, hdp, hdeg, hq, inv1, inv2 => by
    have hns2 : ns2.Nodup := hns.nodup hns1
    have hdeps2 : ∀ n, (deps2 n).Nodup := fun n => (hdp n).nodup (hdeps1 n)
    have hs1 := List.sorted_insertionSort pyLe q1
    have hs2 := List.sorted_insertionSort pyLe q2
    have hp1 := List.perm_insertionSort pyLe q1
    have hp2 := List.perm_insertionSort pyLe q2
    have heq : List.insertionSort pyLe q1 = List.insertionSort pyLe q2 :=
      List.eq_of_perm_of_sorted (hp1.trans (hq.trans hp2.symm)) hs1 hs2
    rw [kahnLoop, kahnLoop, heq]
    rcases hsort : List.insertionSort pyLe q2 with _ | ⟨current, qs⟩
    · rfl
    · have hq1s : List.Perm q1 (current :: qs) := by
        rw [← hsort, ← heq]
        exact hp1.symm
      have hq2s : List.Perm q2 (current :: qs) := by
        rw [← hsort]
        exact hp2.symm
      have inv1s := kahnInv_step hns1 hdeps1 (inv1.perm_queue hq1s)
      have inv2s := kahnInv_step hns2 hdeps2 (inv2.perm_queue hq2s)
      have hdeg2 : ∀ x, (decStep deps1 current ns1 indeg1 qs).1 x
          = (decStep deps2 current ns2 indeg2 qs).1 x := by
        intro x
        rw [decStep_fst deps1 current ns1 hns1, decStep_fst deps2 current ns2 hns2]
        by_cases hk : x ∈ ns1 ∧ current ∈ deps1 x
        · rw [if_pos hk, if_pos ⟨hns.mem_iff.mp hk.1, (hdp x).mem_iff.mp hk.2⟩, hdeg]
        · rw [if_neg hk, if_neg
            (fun hk2 => hk ⟨hns.mem_iff.mpr hk2.1, (hdp x).mem_iff.mpr hk2.2⟩), hdeg]
      have hq2' : List.Perm (decStep deps1 current ns1 indeg1 qs).2
          (decStep deps2 current ns2 indeg2 qs).2 := by
        rw [decStep_snd deps1 current ns1 hns1, decStep_snd deps2 current ns2 hns2]
        refine List.Perm.append_left qs ?_
        have hstep : List.Perm
            (ns1.filter (fun n => decide (current ∈ deps1 n) && decide (indeg1 n - 1 = 0)))
            (ns2.filter (fun n => decide (current ∈ deps1 n) && decide (indeg1 n - 1 = 0))) :=
          hns.filter _
        refine hstep.trans ?_
        rw [List.filter_congr ?_]
        intro n _
        have e1 : decide (current ∈ deps1 n) = decide (current ∈ deps2 n) :=
          decide_eq_decide.mpr (hdp n).mem_iff
        have e2 : decide (indeg1 n - 1 = 0) = decide (indeg2 n - 1 = 0) :=
          decide_eq_decide.mpr (by rw [hdeg])
        rw [e1, e2]
      exact kahnLoop_congr fuel ns1 ns2 deps1 deps2 _ _ _ _ _
        hns1 hns hdeps1 hdp hdeg2 hq2' inv1s inv2s

/-- C7: determinism of the execution order.  The builder returns the
identical sequence for any two graphs holding the same node ids and the
same connections, regardless of the dict iteration order in which either
is stored; in particular repeated calls on a fixed graph agree.  The
sorted ready queue is what makes the pop order canonical. -/
theorem claim_deterministic_order (wd1 wd2 : Workflow)
    (hnd : (nodeIds wd1).Nodup)
    (hns : List.Perm (nodeIds wd1) (nodeIds wd2))
    (hcs : List.Perm (wd1.connections.map Prod.snd) (wd2.connections.map Prod.snd)) :
    buildExecutionOrder wd1 = buildExecutionOrder wd2 := by
  have hnd2 : (nodeIds wd2).Nodup := hns.nodup hnd
  have hdp : ∀ n, List.Perm (depsOf wd1 n) (depsOf wd2 n) := by
    intro n
    unfold depsOf
    refine List.Perm.dedup (List.Perm.map _ ?_)
    have hstep := hcs.filter (fun c =>
      decide (c.from_node ≠ "" ∧ c.to_node ≠ "" ∧
        c.from_node ∈ nodeIds wd1 ∧ c.to_node ∈ nodeIds wd1 ∧ c.to_node = n))
    refine hstep.trans ?_
    rw [List.filter_congr ?_]
    intro c _
    refine decide_eq_decide.mpr ?_
    constructor
    · rintro ⟨a, b, d, e, f⟩
      exact ⟨a, b, hns.mem_iff.mp d, hns.mem_iff.mp e, f⟩
    · rintro ⟨a, b, d, e, f⟩
      exact ⟨a, b, hns.mem_iff.mpr d, hns.mem_iff.mpr e, f⟩
  have hdeg : ∀ x, ((depsOf wd1 x).length : Int) = ((depsOf wd2 x).length : Int) :=
    fun x => by rw [(hdp x).length_eq]
  have hq0 : List.Perm
      ((nodeIds wd1).filter (fun n => ((depsOf wd1 n).length : Int) == 0))
      ((nodeIds wd2).filter (fun n => ((depsOf wd2 n).length : Int) == 0)) := by
    have hstep := hns.filter (fun n => ((depsOf wd1 n).length : Int) == 0)
    refine hstep.trans ?_
    rw [List.filter_congr ?_]
    intro n _
    rw [hdeg]
  have hlen := hns.length_eq
  have hloop := kahnLoop_congr (nodeIds wd1).length (nodeIds wd1) (nodeIds wd2)
    (depsOf wd1) (depsOf wd2) _ _ _ _ []
    hnd hns (fun n => List.nodup_dedup _) hdp hdeg hq0
    (kahnInv_init wd1 hnd) (kahnInv_init wd2 hnd2)
  simp only [buildExecutionOrder]
  rw [← hlen, hloop]

/-!  ## Stop semantics: nodes started before the stop boundary -/

/-- The number of nodes that began execution, read off the status-update
trace: one `running` update is emitted per started node. -/
def runCount (tr : List (String × String)) : Nat :=
  (tr.filter (fun e => e.2 == "running")).length

theorem runCount_append (a b : List (String × String)) :
    runCount (a ++ b) = runCount a + runCount b := by
  simp [runCount, List.filter_append]

theorem execNode_runCount (rf : String → String → Except String (List String))
    (wd : Workflow) (outs : List (String × List (String × Value))) (n : String) :
    runCount (execNode rf wd outs n).2 ≤ 1 := by
  rw [execNode]
  rcases dget wd.nodes n with _ | nd
  · simp [runCount]
  · rcases hri : runNodeInstance rf nd (prepareInputs wd outs n) with e | out <;>
      simp [hri, runCount]

theorem execLoop_runCount_le (rf : String → String → Except String (List String))
    (wd : Workflow) (stop : Nat → Bool) (j : Nat) (hj : stop j = true) :
    ∀ (order : List String) (k : Nat) (st : ExecState), k ≤ j →
      runCount (execLoop rf wd stop order k st).trace ≤ runCount st.trace + (j - k)
  | [], k, st, _ => by
    rw [execLoop]
    split <;> exact Nat.le_add_right _ _
  | n :: rest, k, st, hk => by
    rw [execLoop]
    by_cases hs : stop k = true
    · rw [if_pos hs]
      exact Nat.le_add_right _ _
    · rw [if_neg hs]
      have hkj : k < j := Nat.lt_of_le_of_ne hk (fun he => hs (he ▸ hj))
      have hnode := execNode_runCount rf wd st.node_outputs n
      rcases hr : (execNode rf wd st.node_outputs n).1 with e | out
      all_goals dsimp only
      · by_cases hcrit : isCriticalNode wd n = true
        · rw [if_pos hcrit]
          simp only [runCount_append]
          omega
        · rw [if_neg hcrit]
          have hrec := execLoop_runCount_le rf wd stop j hj rest (k + 1)
            { st with
              trace := st.trace ++ (execNode rf wd st.node_outputs n).2,
              errors := st.errors ++ ["Node " ++ n ++ " failed: " ++ e],
              failed_nodes := st.failed_nodes ++ [n] } (by omega)
          simp only [runCount_append] at hrec
          omega
      · have hrec := execLoop_runCount_le rf wd stop j hj rest (k + 1)
          { st with
            trace := st.trace ++ (execNode rf wd st.node_outputs n).2,
            completed_nodes := st.completed_nodes ++ [n],
            node_outputs := dset st.node_outputs n out } (by omega)
        simp only [runCount_append] at hrec
        omega

theorem executeRun_runCount_le (rf : String → String → Except String (List String))
    (wd : Workflow) (stop : Nat → Bool) (j : Nat) (hj : stop j = true) :
    runCount (executeRun rf wd stop).trace ≤ j := by
  rw [executeRun]
  rcases buildExecutionOrder wd with e | order
  · simp [runCount, initExecState]
  · have := execLoop_runCount_le rf wd stop j hj order 0
      { initExecState with execution_order := order } (Nat.zero_le j)
    simpa [runCount, initExecState] using this

/-- The reference semantics of graph capture at submission:
`WorkflowEngine.execute_workflow` hands the callers `workflow_data` dict
to `WorkflowExecution.__init__`, which stores the reference
(`self.workflow_data = workflow_data`) without any copy, and every read
during `execute` goes through that reference.  The run therefore
evaluates the graph as it stands when the worker executes
(`gRun`), not as it stood at submission (`gSub`). -/
def submittedRun (rf : String → String → Except String (List String))
    (_gSub gRun : Workflow) (stop : Nat → Bool) : ExecState :=
  executeRun rf gRun stop

/-- A stop request that lands after the first node completes and before
the second starts: the flag reads false at boundary 0 and true from
boundary 1 on. -/
def stopAfterOne : Nat → Bool := fun k => decide (1 ≤ k)

/-- The chain workflow with both dicts listed in the opposite insertion
order (same node ids, same connections). -/
def gChainPerm : Workflow :=
  { nodes := gChain.nodes.reverse, connections := gChain.connections.reverse }

/-!  ## The claims -/

/-- C1: for the two-node workflow (`n1 : text_input` with `text = "abc"`,
`n2 : text_processor` with `operation = "uppercase"`, connection
`n1.text -> n2.text`), the run yields execution order `[n1, n2]`,
`n1` output `{text: "abc"}`, `n2` output `{result: "ABC", length: 3}`,
and terminal status `completed`. -/
theorem claim_concrete_scenario :
    (executeRun noRegex gAbc (fun _ => false)).execution_order = ["n1", "n2"]
    ∧ dget (executeRun noRegex gAbc (fun _ => false)).node_outputs "n1"
        = some [("text", Value.str "abc")]
    ∧ dget (executeRun noRegex gAbc (fun _ => false)).node_outputs "n2"
        = some [("result", Value.str "ABC"), ("length", Value.int 3)]
    ∧ (executeRun noRegex gAbc (fun _ => false)).status = "completed" :=
  ⟨rfl, rfl, rfl, rfl⟩

/-- C2 counterexample: a single registered node with its required
property and a position, and zero connections, is reported in the
validation error list, and the engine rejects the run with
`on_complete(False, message)` before any node execution. -/
theorem claim_no_connections_counterexample :
    validateWorkflow gSingle = ["Workflow has nodes but no connections"]
    ∧ engineRunInternal noRegex gSingle (fun _ => false)
        = (false, "Workflow validation failed: Workflow has nodes but no connections",
           none) :=
  ⟨rfl, rfl⟩

/-- C2 (amended): a graph with at least one node and zero connections is
not merely warning-flagged: the message lands in the same error list as
the fatal problems, validation therefore fails, and the run never
reaches node execution (the completion callback reports failure and no
run state exists). -/
theorem claim_no_connections_fatal (wd : Workflow)
    (h1 : wd.nodes ≠ []) (h2 : wd.connections = []) :
    "Workflow has nodes but no connections" ∈ validateWorkflow wd
    ∧ ∀ rf stop, (engineRunInternal rf wd stop).1 = false
        ∧ (engineRunInternal rf wd stop).2.2 = none := by
  have hmem : "Workflow has nodes but no connections" ∈ validateWorkflow wd := by
    unfold validateWorkflow
    refine List.mem_append.mpr (Or.inr ?_)
    rw [if_pos ⟨h1, h2⟩]
    exact List.mem_singleton.mpr rfl
  refine ⟨hmem, ?_⟩
  intro rf stop
  have hne : validateWorkflow wd ≠ [] := List.ne_nil_of_mem hmem
  unfold engineRunInternal
  rw [if_pos hne]
  exact ⟨rfl, rfl⟩

/-- Witness for C2: the amended statement applied to the concrete
one-node graph. -/
theorem claim_no_connections_fatal_witness :
    gSingle.nodes ≠ [] ∧ gSingle.connections = []
    ∧ "Workflow has nodes but no connections" ∈ validateWorkflow gSingle
    ∧ (engineRunInternal noRegex gSingle (fun _ => false)).1 = false
    ∧ (engineRunInternal noRegex gSingle (fun _ => false)).2.2 = none := by
  have h1 : gSingle.nodes ≠ [] := by decide
  have h2 : gSingle.connections = [] := rfl
  have h := claim_no_connections_fatal gSingle h1 h2
  exact ⟨h1, h2, h.1, (h.2 noRegex (fun _ => false)).1, (h.2 noRegex (fun _ => false)).2⟩

/-- C3 counterexample: under the type-compatibility rule of the engine
(the one the Validator calls), `list` and `array` are not compatible in
either direction. -/
theorem claim_list_array_counterexample :
    engineTypesCompatible "list" "array" = false
    ∧ engineTypesCompatible "array" "list" = false :=
  ⟨rfl, rfl⟩

/-- C3 (amended): the Validator accepts identical types and `any` on
either side, but its own table in `WorkflowEngine` has no `list`/`array`
entries, so it rejects `list -> array` and `array -> list`; only the
separate table in `NodeFactory` (used for node search) makes `list` and
`array` an equivalence class. -/
theorem claim_list_array_tables :
    (∀ t, engineTypesCompatible t t = true)
    ∧ (∀ t, engineTypesCompatible t "any" = true)
    ∧ (∀ t, engineTypesCompatible "any" t = true)
    ∧ engineTypesCompatible "list" "array" = false
    ∧ engineTypesCompatible "array" "list" = false
    ∧ factoryTypesCompatible "list" "array" = true
    ∧ factoryTypesCompatible "array" "list" = true := by
  refine ⟨?_, ?_, ?_, rfl, rfl, rfl, rfl⟩
  · intro t
    simp [engineTypesCompatible]
  · intro t
    simp [engineTypesCompatible]
  · intro t
    simp [engineTypesCompatible]

/-- C4 counterexample: on the valid two-node workflow, a run stopped at
the first boundary terminates with status `stopped`, yet the completion
callback receives `(True, "")`, exactly the signal an error-free
completed run of the same workflow produces. -/
theorem claim_stopped_callback_counterexample :
    (engineRunInternal noRegex gAbc (fun _ => true)).1 = true
    ∧ (engineRunInternal noRegex gAbc (fun _ => true)).2.1 = ""
    ∧ ((engineRunInternal noRegex gAbc (fun _ => true)).2.2).map ExecState.status
        = some "stopped"
    ∧ (engineRunInternal noRegex gAbc (fun _ => false)).1 = true
    ∧ (engineRunInternal noRegex gAbc (fun _ => false)).2.1 = ""
    ∧ ((engineRunInternal noRegex gAbc (fun _ => false)).2.2).map ExecState.status
        = some "completed" :=
  ⟨rfl, rfl, rfl, rfl, rfl, rfl⟩

/-- C4 (amended): a stopped run is recorded as `status = "stopped"` on
the execution object (distinct from `failed`), but the engine completion
callback cannot tell it apart from success: whenever validation passes,
`on_complete` receives `(True, "")` no matter how the run ended. -/
theorem claim_stopped_callback (rf : String → String → Except String (List String))
    (wd : Workflow) (stop : Nat → Bool) (h : validateWorkflow wd = []) :
    (engineRunInternal rf wd stop).1 = true
    ∧ (engineRunInternal rf wd stop).2.1 = ""
    ∧ (engineRunInternal rf wd stop).2.2 = some (executeRun rf wd stop) := by
  unfold engineRunInternal
  rw [h]
  exact ⟨rfl, rfl, rfl⟩

/-- Witness for C4: the amended statement applied to the two-node
workflow with an immediate stop request. -/
theorem claim_stopped_callback_witness :
    validateWorkflow gAbc = []
    ∧ (engineRunInternal noRegex gAbc (fun _ => true)).1 = true
    ∧ (engineRunInternal noRegex gAbc (fun _ => true)).2.1 = ""
    ∧ (engineRunInternal noRegex gAbc (fun _ => true)).2.2
        = some (executeRun noRegex gAbc (fun _ => true)) := by
  have h := claim_stopped_callback noRegex gAbc (fun _ => true) rfl
  exact ⟨rfl, h.1, h.2.1, h.2.2⟩

/-- C5 counterexample: submitting the two-node workflow and then mutating
the callers graph (operation switched to lowercase) before the worker
runs changes the in-flight runs outputs, so the run is not isolated from
post-submission mutations. -/
theorem claim_snapshot_counterexample :
    dget (submittedRun noRegex gAbc gAbcMut (fun _ => false)).node_outputs "n2"
      = some [("result", Value.str "abc"), ("length", Value.int 3)]
    ∧ dget (submittedRun noRegex gAbc gAbc (fun _ => false)).node_outputs "n2"
      = some [("result", Value.str "ABC"), ("length", Value.int 3)]
    ∧ submittedRun noRegex gAbc gAbcMut (fun _ => false)
        ≠ submittedRun noRegex gAbc gAbc (fun _ => false) := by
  refine ⟨rfl, rfl, ?_⟩
  intro h
  have h2 := congrArg (fun s => dget s.node_outputs "n2") h
  simp only at h2
  exact absurd h2 (by decide)

/-- C5 (amended): no snapshot is taken at submission time: the run reads
the callers graph as it stands at execution time, so post-submission
mutations do affect the in-flight run (mutating the operation property
flips the produced output). -/
theorem claim_snapshot_amended :
    (∀ rf gSub gRun stop, submittedRun rf gSub gRun stop = executeRun rf gRun stop)
    ∧ dget (submittedRun noRegex gAbc gAbcMut (fun _ => false)).node_outputs "n2"
        = some [("result", Value.str "abc"), ("length", Value.int 3)]
    ∧ dget (submittedRun noRegex gAbc gAbc (fun _ => false)).node_outputs "n2"
        = some [("result", Value.str "ABC"), ("length", Value.int 3)] :=
  ⟨fun _ _ _ _ => rfl, rfl, rfl⟩

/-- C6 counterexample: in the graph with nodes `""` and `"b"` and the
single connection `b -> ""`, both endpoints are nodes of the graph and
the validators cycle check finds no cycle, yet the builder succeeds with
the order `["", "b"]`, in which the source `"b"` does not precede the
target `""`: the dependency pass drops connections with a falsy endpoint
id. -/
theorem claim_topological_counterexample :
    buildExecutionOrder gEmptyId = Except.ok ["", "b"]
    ∧ checkCircularDeps gEmptyId = []
    ∧ ("c1", { from_node := "b", from_pin := "p", to_node := "", to_pin := "q" })
        ∈ gEmptyId.connections
    ∧ "b" ∈ nodeIds gEmptyId ∧ "" ∈ nodeIds gEmptyId
    ∧ ¬ (List.indexOf "b" ["", "b"] < List.indexOf "" ["", "b"]) := by
  refine ⟨rfl, rfl, by decide, by decide, by decide, by decide⟩

/-- Witness for C6: the amended statement applied to the two-node
workflow and its single connection. -/
theorem claim_topological_order_witness :
    (nodeIds gAbc).Nodup
    ∧ buildExecutionOrder gAbc = Except.ok ["n1", "n2"]
    ∧ ("c1", { from_node := "n1", from_pin := "text", to_node := "n2", to_pin := "text" })
        ∈ gAbc.connections
    ∧ "n1" ∈ nodeIds gAbc ∧ "n2" ∈ nodeIds gAbc
    ∧ List.indexOf "n1" ["n1", "n2"] < List.indexOf "n2" ["n1", "n2"] := by
  refine ⟨by decide, rfl, by decide, by decide, by decide, ?_⟩
  exact claim_topological_order gAbc ["n1", "n2"] (by decide) rfl "c1"
    { from_node := "n1", from_pin := "text", to_node := "n2", to_pin := "text" }
    (by decide) (by decide) (by decide) (by decide) (by decide)

/-- Witness for C7: the chain workflow stored in two different dict
orders yields the identical execution order. -/
theorem claim_deterministic_order_witness :
    (nodeIds gChain).Nodup
    ∧ List.Perm (nodeIds gChain) (nodeIds gChainPerm)
    ∧ List.Perm (gChain.connections.map Prod.snd) (gChainPerm.connections.map Prod.snd)
    ∧ buildExecutionOrder gChain = buildExecutionOrder gChainPerm := by
  refine ⟨by decide, by decide, by decide, ?_⟩
  exact claim_deterministic_order gChain gChainPerm (by decide) (by decide) (by decide)

/-- C8: partial-failure isolation.  Three unconnected non-critical nodes
where the second raises (its required input is missing): the run ends
`completed_with_errors`, nodes 1 and 3 get `success` updates with their
outputs recorded, node 2 gets an `error` update, lands in `failed_nodes`
and records no output. -/
theorem claim_partial_failure :
    (executeRun noRegex gThree (fun _ => false)).status = "completed_with_errors"
    ∧ (executeRun noRegex gThree (fun _ => false)).completed_nodes = ["n1", "n3"]
    ∧ (executeRun noRegex gThree (fun _ => false)).failed_nodes = ["n2"]
    ∧ dget (executeRun noRegex gThree (fun _ => false)).node_outputs "n1"
        = some [("text", Value.str "hello")]
    ∧ dget (executeRun noRegex gThree (fun _ => false)).node_outputs "n3"
        = some [("text", Value.str "world")]
    ∧ dget (executeRun noRegex gThree (fun _ => false)).node_outputs "n2" = none
    ∧ (executeRun noRegex gThree (fun _ => false)).trace
        = [("n1", "running"), ("n1", "success"), ("n2", "running"), ("n2", "error"),
           ("n3", "running"), ("n3", "success")] :=
  ⟨rfl, rfl, rfl, rfl, rfl, rfl, rfl⟩

/-- C9: cooperative stop at node boundaries.  Concretely, stopping the
three-node chain after node 1 completes yields terminal status `stopped`
with exactly one completed node and no failed node; in general, if the
stop flag reads true at boundary `j`, at most `j` nodes of the run ever
begin execution (no node starts once the flag is observed). -/
theorem claim_stop_semantics (rf : String → String → Except String (List String))
    (wd : Workflow) (stop : Nat → Bool) (j : Nat) (hj : stop j = true) :
    ((executeRun noRegex gChain stopAfterOne).status = "stopped"
      ∧ (executeRun noRegex gChain stopAfterOne).completed_nodes = ["n1"]
      ∧ (executeRun noRegex gChain stopAfterOne).failed_nodes = [])
    ∧ runCount (executeRun rf wd stop).trace ≤ j :=
  ⟨⟨rfl, rfl, rfl⟩, executeRun_runCount_le rf wd stop j hj⟩

/-- Witness for C9: the general bound applied to the chain workflow with
the stop request landing at boundary 1. -/
theorem claim_stop_semantics_witness :
    stopAfterOne 1 = true
    ∧ ((executeRun noRegex gChain stopAfterOne).status = "stopped"
        ∧ (executeRun noRegex gChain stopAfterOne).completed_nodes = ["n1"]
        ∧ (executeRun noRegex gChain stopAfterOne).failed_nodes = [])
    ∧ runCount (executeRun noRegex gChain stopAfterOne).trace ≤ 1 :=
  ⟨rfl, (claim_stop_semantics noRegex gChain stopAfterOne 1 rfl).1,
    (claim_stop_semantics noRegex gChain stopAfterOne 1 rfl).2⟩

/-- Dict lookup commutes with a key-preserving per-entry update. -/
theorem dget_map_entry {α : Type} (f : String → α → α) :
    ∀ (l : List (String × α)) (k : String),
      dget (l.map (fun p => (p.1, f p.1 p.2))) k = (dget l k).map (f k)
  | [], k => by simp [dget]
  | a :: rest, k => by
    by_cases hak : a.1 = k
    · subst hak
      simp [dget, List.find?]
    · have hb : (a.1 == k) = false := by simpa using hak
      simp only [List.map_cons, dget, List.find?, hb]
      have hrec := dget_map_entry f rest k
      simpa [dget] using hrec

/-- Lookup after the global-stop pass over the execution objects. -/
theorem dget_stopAll_eq (execs : List (String × ExecRef)) (ids : List String)
    (k : String) :
    dget (execs.map (fun p => (p.1, if p.1 ∈ ids then stopRef p.2 else p.2))) k
      = (dget execs k).map (fun v => if k ∈ ids then stopRef v else v) :=
  dget_map_entry (fun q v => if q ∈ ids then stopRef v else v) execs k

/-- Lookup after the single-id stop pass over the execution objects. -/
theorem dget_stopOne_eq (execs : List (String × ExecRef)) (i : String)
    (k : String) :
    dget (execs.map (fun p => (p.1, if p.1 == i then stopRef p.2 else p.2))) k
      = (dget execs k).map (fun v => if k == i then stopRef v else v) :=
  dget_map_entry (fun q v => if q == i then stopRef v else v) execs k

/-- C10: asymmetry of stopping.  A global `stop_execution()` flags every
active execution and immediately empties the active-run table, so
`has_active_executions` reports false and every status poll returns
`None` even though the execution objects (which the worker threads still
hold) are merely flagged; `stop_execution(i)` for a registered id flags
that one execution but leaves the table unchanged, so the run still
polls as running until its own cleanup removes it. -/
theorem claim_stop_all_vs_one (t : EngineTable) (i : String)
    (hi : i ∈ t.activeIds) (e : ExecRef) (he : dget t.execs i = some e) :
    hasActiveExecutions (stopExecution t none) = false
    ∧ (∀ x, getExecutionStatus (stopExecution t none) x = none)
    ∧ (∀ x ex, x ∈ t.activeIds →
        dget (stopExecution t none).execs x = some ex → ex.stop_requested = true)
    ∧ dget (stopExecution t (some i)).execs i = some (stopRef e)
    ∧ (stopRef e).stop_requested = true
    ∧ isExecutionRunning (stopExecution t (some i)) i = true
    ∧ (stopExecution t (some i)).activeIds = t.activeIds := by
  have hfunAll : (fun p : String × ExecRef =>
      if p.1 ∈ t.activeIds then (p.1, stopRef p.2) else p)
      = fun p => (p.1, if p.1 ∈ t.activeIds then stopRef p.2 else p.2) := by
    funext p
    by_cases h : p.1 ∈ t.activeIds <;> simp [h]
  have hfunOne : (fun p : String × ExecRef =>
      if p.1 == i then (p.1, stopRef p.2) else p)
      = fun p => (p.1, if p.1 == i then stopRef p.2 else p.2) := by
    funext p
    by_cases h : p.1 == i <;> simp [h]
  refine ⟨?_, ?_, ?_, ?_, rfl, ?_, ?_⟩
  · simp [stopExecution, hasActiveExecutions]
  · intro x
    simp [stopExecution, getExecutionStatus]
  · intro x ex hx hdg
    rw [show (stopExecution t none).execs
        = t.execs.map (fun p => (p.1, if p.1 ∈ t.activeIds then stopRef p.2 else p.2))
      from by rw [stopExecution, ← hfunAll]] at hdg
    rw [dget_stopAll_eq] at hdg
    rcases hdget : dget t.execs x with _ | e0
    · rw [hdget] at hdg
      cases hdg
    · rw [hdget] at hdg
      have hex := Option.some.inj hdg
      rw [← hex]
      simp [hx, stopRef]
  · rw [show (stopExecution t (some i)).execs
        = t.execs.map (fun p => (p.1, if p.1 == i then stopRef p.2 else p.2))
      from by rw [stopExecution, if_pos hi, ← hfunOne]]
    rw [dget_stopOne_eq, he]
    simp
  · simp [stopExecution, isExecutionRunning, hi]
  · simp [stopExecution, hi]

/-- A one-entry engine table for the C10 witness. -/
def sampleTable : EngineTable :=
  { execs := [("e1", { stop_requested := false, status := "running" })],
    activeIds := ["e1"] }

/-- Witness for C10: the statement applied to a concrete one-run
table. -/
theorem claim_stop_all_vs_one_witness :
    ("e1" ∈ sampleTable.activeIds)
    ∧ dget sampleTable.execs "e1"
        = some { stop_requested := false, status := "running" }
    ∧ hasActiveExecutions (stopExecution sampleTable none) = false
    ∧ getExecutionStatus (stopExecution sampleTable none) "e1" = none
    ∧ dget (stopExecution sampleTable (some "e1")).execs "e1"
        = some (stopRef { stop_requested := false, status := "running" })
    ∧ isExecutionRunning (stopExecution sampleTable (some "e1")) "e1" = true := by
  have h := claim_stop_all_vs_one sampleTable "e1" (by decide)
    { stop_requested := false, status := "running" } rfl
  exact ⟨by decide, rfl, h.1, h.2.1 "e1", h.2.2.2.1, h.2.2.2.2.2.1⟩

end WorkflowBuilder
